import Mathlib

/-!
# Verification of the pgmigrate core

Shallow embedding of the `pgmigrate` Go package (file `pgmigrate.go`):
the `Migration` value type, validation (`Migration.Valid`,
`Migrations.Valid`), history verification (`verifyMigrations`),
application (`applyMigrations`) and the orchestrating `Migrate`
entry point, together with the identifier quoting helper
`quoteIdentifier`.

Database interaction is modelled by an explicit state (`DBState`: the
bookkeeping rows and a log of executed statements) threaded through a
transaction buffer (`Tx`), with an environment (`Env`) acting as the
oracle that decides which database calls fail and with which message.
Errors are the constructors of `PgError`, one per `fmt.Errorf` site of
the source.
-/

namespace Pgmigrate

/-- A migration: `ID`, `Description`, `SQL` (struct `Migration` in the
source). Go struct equality is field-wise, matching derived `DecidableEq`. -/
structure Migration where
  ID : Int
  Description : String
  SQL : String
deriving DecidableEq, Repr

/-- Errors, one constructor per error-construction site of the source.
Each constructor carries exactly the data interpolated into the
corresponding `fmt.Errorf` format string. -/
inductive PgError where
  /-- Error `"invalid id: %d"` in `Migration.Valid`. -/
  | invalidId (id : Int)
  /-- Error `"missing description"` in `Migration.Valid`. -/
  | missingDescription
  /-- Error `"missing sql"` in `Migration.Valid`. -/
  | missingSql
  /-- Error `"unexpected migration id: got=%d want=%d"` in `Migrations.Valid`. -/
  | unexpectedMigrationId (got want : Int)
  /-- Error `"invalid migration %d: %s"` in `Migrations.Valid`. -/
  | invalidMigration (id : Int) (cause : PgError)
  /-- Error `"unknown migration %d in db"` in `verifyMigrations`. -/
  | unknownMigration (id : Int)
  /-- Error `"modified migration %d detected"` in `verifyMigrations`. -/
  | modifiedMigration (id : Int)
  /-- Error `"%d %s: %s"` in `applyMigrations` (statement execution or
  bookkeeping insert failure). -/
  | execError (id : Int) (description : String) (cause : String)
  /-- An error returned directly from a database/sql call
  (`Begin`, `Exec` of the init DDL, `Query`, `Scan`, `Commit`). -/
  | dbError (cause : String)
deriving DecidableEq, Repr

/-- Model of `func (m *Migration) Valid() error`: `nil` is `none`, an error is
`some`. -/
def Migration.Valid (m : Migration) : Option PgError :=
  if m.ID < 1 then some (.invalidId m.ID)
  else if m.Description = "" then some .missingDescription
  else if m.SQL = "" then some .missingSql
  else none

/-- Type `Migrations` is a list of migrations (`type Migrations []Migration`). -/
abbrev Migrations := List Migration

/-- The loop body of `func (m Migrations) Valid() error`, with the loop
index `i` made explicit: position `i` must have id `i+1` and be
individually valid. -/
def validFrom : Migrations → Nat → Option PgError
  | [], _ => none
  | m :: rest, i =>
    if m.ID ≠ (i : Int) + 1 then some (.unexpectedMigrationId m.ID ((i : Int) + 1))
    else
      match m.Valid with
      | some err => some (.invalidMigration m.ID err)
      | none => validFrom rest (i + 1)

/-- Model of `func (m Migrations) Valid() error`: the loop starts at index 0. -/
def Migrations.Valid (ms : Migrations) : Option PgError :=
  validFrom ms 0

/-- Model of `func (m Migrations) IDs() []int`. -/
def Migrations.IDs (ms : Migrations) : List Int :=
  ms.map Migration.ID

/-- Model of `strings.Replace(name, QUOTE, QUOTE+QUOTE, -1)` specialised to the
double-quote character: every `"` is doubled. -/
def escapeQuotes : List Char → List Char
  | [] => []
  | c :: rest =>
    if c = '"' then '"' :: '"' :: escapeQuotes rest
    else c :: escapeQuotes rest

/-- Truncation at the first NUL byte: `strings.IndexRune(name, 0)`
followed by `name[:end]` when a NUL is present. -/
def truncateAtNul (name : String) : List Char :=
  name.data.takeWhile (fun c => c ≠ Char.ofNat 0)

/-- Model of `func quoteIdentifier(name string) string`: truncate at the first
NUL, double every embedded double quote, wrap in double quotes. -/
def quoteIdentifier (name : String) : String :=
  String.mk ('"' :: (escapeQuotes (truncateAtNul name) ++ ['"']))

/-- Model of `type Config struct` with fields `Schema` and `Table`. -/
structure Config where
  Schema : String
  Table : String

/-- Model of `var DefaultConfig`: schema and table both named "migrations". -/
def DefaultConfig : Config := { Schema := "migrations", Table := "migrations" }

/-- Model of `func (c *Config) table() string`: schema-qualified quoted table name. -/
def Config.table (c : Config) : String :=
  quoteIdentifier c.Schema ++ "." ++ quoteIdentifier c.Table

/-- Durable database state: whether the bookkeeping schema/table exists,
the bookkeeping rows in ascending-id read order, and the log of SQL
statements whose effects are durable (the abstract schema state). -/
structure DBState where
  initialized : Bool
  rows : Migrations
  executed : List String
deriving DecidableEq, Repr

/-- An open transaction: the durable base state plus buffered,
uncommitted changes.  `Rollback` discards the buffer, `Commit` merges
it into the base. -/
structure Tx where
  base : DBState
  pendingInit : Bool
  pendingRows : Migrations
  pendingExec : List String
deriving DecidableEq, Repr

/-- Model of `db.Begin()`: an empty transaction over the current durable state. -/
def Tx.begin (db : DBState) : Tx :=
  { base := db, pendingInit := false, pendingRows := [], pendingExec := [] }

/-- Model of `tx.Rollback()`: every buffered change is discarded. -/
def Tx.rollback (tx : Tx) : DBState :=
  tx.base

/-- Model of `tx.Commit()`: the buffered changes become durable. -/
def Tx.commit (tx : Tx) : DBState :=
  { initialized := tx.base.initialized || tx.pendingInit,
    rows := tx.base.rows ++ tx.pendingRows,
    executed := tx.base.executed ++ tx.pendingExec }

/-- Rows visible to a query issued inside the transaction: the durable
rows followed by the rows this transaction has inserted. -/
def Tx.visibleRows (tx : Tx) : Migrations :=
  tx.base.rows ++ tx.pendingRows

/-- Failure oracle for the database calls `Migrate` performs.  Each
field returns `none` for success or `some msg` for failure with
message `msg`; statement execution is keyed by the statement text and
the bookkeeping insert by the migration id, matching the arguments the
source passes to `tx.Exec`. -/
structure Env where
  beginErr : Option String
  initErr : Option String
  queryErr : Option String
  execErr : String → Option String
  insertErr : Int → Option String
  commitErr : Option String

/-- An environment in which every database call succeeds. -/
def Env.ok : Env :=
  { beginErr := none, initErr := none, queryErr := none,
    execErr := fun _ => none, insertErr := fun _ => none, commitErr := none }

/-- The row-consuming loop of `func (c *Config) verifyMigrations`:
each recorded row (in ascending id order) must equal the head of the
remaining candidate list, which is then dropped; the suffix left after
all rows are consumed is returned. -/
def verifyLoop : Migrations → Migrations → Except PgError Migrations
  | [], ms => .ok ms
  | dbM :: rest, ms =>
    match ms with
    | [] => .error (.unknownMigration dbM.ID)
    | m :: msRest =>
      if dbM ≠ m then .error (.modifiedMigration dbM.ID)
      else verifyLoop rest msRest

/-- Model of `func (c *Config) verifyMigrations(tx, ms)`: the recorded rows are
read in ascending id order from the transaction and consumed against
`ms`; the query itself can fail per the environment. -/
def Config.verifyMigrations (_c : Config) (env : Env) (tx : Tx) (ms : Migrations) :
    Except PgError Migrations :=
  match env.queryErr with
  | some msg => .error (.dbError msg)
  | none => verifyLoop tx.visibleRows ms

/-- The per-migration loop of `func (c *Config) applyMigrations`:
execute the migration's SQL, then insert its bookkeeping row, buffering
both effects in the transaction; the first failure aborts with an error
naming the migration's id and description and wrapping the cause. -/
def applyLoop (env : Env) : Tx → Migrations → Except PgError Tx
  | tx, [] => .ok tx
  | tx, m :: rest =>
    match env.execErr m.SQL with
    | some msg => .error (.execError m.ID m.Description msg)
    | none =>
      let tx1 := { tx with pendingExec := tx.pendingExec ++ [m.SQL] }
      match env.insertErr m.ID with
      | some msg => .error (.execError m.ID m.Description msg)
      | none =>
        applyLoop env { tx1 with pendingRows := tx1.pendingRows ++ [m] } rest

/-- Model of `func (c *Config) applyMigrations(tx, ms)`: run the loop, then
commit; on success the committed state and the list `ms` it applied are
returned, on any failure the caller's deferred rollback applies. -/
def Config.applyMigrations (_c : Config) (env : Env) (tx : Tx) (ms : Migrations) :
    Except PgError (DBState × Migrations) :=
  match applyLoop env tx ms with
  | .error e => .error e
  | .ok tx1 =>
    match env.commitErr with
    | some msg => .error (.dbError msg)
    | none => .ok (tx1.commit, ms)

/-- Model of `func (c *Config) init(tx)`: execute the `CREATE SCHEMA IF NOT
EXISTS` / `CREATE TABLE IF NOT EXISTS` DDL inside the transaction. -/
def Config.init (_c : Config) (env : Env) (tx : Tx) : Except PgError Tx :=
  match env.initErr with
  | some msg => .error (.dbError msg)
  | none => .ok { tx with pendingInit := true }

/-- Model of `func (c *Config) Migrate(db, ms)`: validate, begin a transaction
(with deferred rollback on every non-commit exit path), initialize the
bookkeeping store, verify the recorded history, apply the remaining
suffix and commit.  Returns the resulting durable state together with
the applied migrations or the error. -/
def Config.Migrate (c : Config) (env : Env) (db : DBState) (ms : Migrations) :
    DBState × Except PgError Migrations :=
  match Migrations.Valid ms with
  | some err => (db, .error err)
  | none =>
    match env.beginErr with
    | some msg => (db, .error (.dbError msg))
    | none =>
      let tx := Tx.begin db
      match c.init env tx with
      | .error e => (tx.rollback, .error e)
      | .ok tx1 =>
        match c.verifyMigrations env tx1 ms with
        | .error e => (tx1.rollback, .error e)
        | .ok remaining =>
          match c.applyMigrations env tx1 remaining with
          | .error e => (tx1.rollback, .error e)
          | .ok (db1, applied) => (db1, .ok applied)

/-- Spec-side reading of a quoted identifier (the target engine's
quoting convention, stated independently of `quoteIdentifier`):
inside the outer quotes, a doubled `""` denotes one `"`, and a `"`
not part of a doubled pair is unescaped, hence ill-formed. -/
def unescapeQuoted : List Char → Option (List Char)
  | [] => some []
  | [c] => if c = '"' then none else some [c]
  | c :: d :: rest =>
    if c = '"' then
      if d = '"' then (unescapeQuoted rest).map (fun cs => '"' :: cs)
      else none
    else (unescapeQuoted (d :: rest)).map (fun cs => c :: cs)

/-- Spec-side reading of a whole quoted identifier: one leading and one
trailing double quote around a well-escaped body; returns the
identifier the quoted form denotes, or `none` if ill-formed. -/
def readQuotedIdentifier (s : String) : Option String :=
  match s.data with
  | [] => none
  | c :: rest =>
    if c = '"' then
      match rest.getLast? with
      | none => none
      | some d =>
        if d = '"' then (unescapeQuoted rest.dropLast).map String.mk
        else none
    else none

/-! ## Properties of the identifier quoting -/

theorem unescape_cons (c : Char) (cs : List Char) (h : c ≠ '"') :
    unescapeQuoted (c :: cs) = (unescapeQuoted cs).map (fun l => c :: l) := by
  cases cs with
  | nil => simp [unescapeQuoted, h]
  | cons d rest => simp [unescapeQuoted, h]

theorem unescape_escape (t : List Char) : unescapeQuoted (escapeQuotes t) = some t := by
  induction t with
  | nil => rfl
  | cons c rest ih =>
    by_cases hc : c = '"'
    · subst hc
      have he : escapeQuotes ('"' :: rest) = '"' :: '"' :: escapeQuotes rest := by
        simp [escapeQuotes]
      rw [he]
      simp [unescapeQuoted, ih]
    · have he : escapeQuotes (c :: rest) = c :: escapeQuotes rest := by
        simp [escapeQuotes, hc]
      rw [he, unescape_cons c _ hc, ih]
      rfl

/-- C8: `quoteIdentifier` wraps the NUL-truncated input, with every
embedded double quote doubled, in one leading and one trailing double
quote; read back under the engine's identifier-quoting convention
(`readQuotedIdentifier`), the output denotes exactly the NUL-truncated
input, so it contains no unescaped interior quote. -/
theorem quoteIdentifier_roundtrip (name : String) :
    readQuotedIdentifier (quoteIdentifier name) = some (String.mk (truncateAtNul name)) := by
  have h1 : readQuotedIdentifier (quoteIdentifier name)
      = (unescapeQuoted ((escapeQuotes (truncateAtNul name) ++ ['"']).dropLast)).map
          String.mk := by
    simp [readQuotedIdentifier, quoteIdentifier, List.getLast?_concat]
  rw [h1, List.dropLast_concat, unescape_escape]
  rfl

/-! ## Properties of the validator -/

theorem validFrom_cons_none_iff (m : Migration) (rest : Migrations) (i : Nat) :
    validFrom (m :: rest) i = none ↔
      m.ID = (i : Int) + 1 ∧ m.Valid = none ∧ validFrom rest (i + 1) = none := by
  by_cases hid : m.ID = (i : Int) + 1
  · cases hmv : m.Valid with
    | some err => simp [validFrom, hid, hmv]
    | none => simp [validFrom, hid, hmv]
  · simp [validFrom, hid]

theorem validFrom_none_ids (ms : Migrations) (i : Nat) (hv : ∀ m ∈ ms, m.Valid = none) :
    validFrom ms i = none ↔
      ∀ j (h : j < ms.length), (ms.get ⟨j, h⟩).ID = (i : Int) + j + 1 := by
  induction ms generalizing i with
  | nil => simp [validFrom]
  | cons m rest ih =>
    have hm : m.Valid = none := hv m (List.mem_cons_self m rest)
    have hrest : ∀ m' ∈ rest, m'.Valid = none := fun m' h' => hv m' (List.mem_cons_of_mem m h')
    rw [validFrom_cons_none_iff, ih (i + 1) hrest]
    simp only [hm, and_true, true_and]
    constructor
    · rintro ⟨h1, h2⟩ j h
      cases j with
      | zero => simpa using h1
      | succ j' =>
        have := h2 j' (by simpa using h)
        simp only [List.get] at this ⊢
        push_cast at this ⊢
        omega
    · intro H
      constructor
      · have := H 0 (by simp)
        simpa using this
      · intro j h
        have := H (j + 1) (by simpa using h)
        simp only [List.get] at this ⊢
        push_cast at this ⊢
        omega

theorem validFrom_invalidMigration (ms : Migrations) :
    ∀ (i : Nat) (id : Int) (cause : PgError),
      validFrom ms i = some (.invalidMigration id cause) →
      1 ≤ id ∧ ∀ x : Int, cause ≠ .invalidId x := by
  induction ms with
  | nil => intro i id cause h; simp [validFrom] at h
  | cons m rest ih =>
    intro i id cause h
    by_cases hid : m.ID = (i : Int) + 1
    · cases hmv : m.Valid with
      | some err =>
        simp only [validFrom, hid, ne_eq, not_true_eq_false, if_false, ite_false, hmv] at h
        injection h with h'
        injection h' with h1 h2
        constructor
        · rw [← h1]
          have : (0 : Int) ≤ (i : Int) := Int.ofNat_nonneg i
          omega
        · intro x hx
          have hge : ¬ m.ID < 1 := by
            rw [hid]
            have : (0 : Int) ≤ (i : Int) := Int.ofNat_nonneg i
            omega
          unfold Migration.Valid at hmv
          rw [if_neg hge, h2, hx] at hmv
          by_cases hd : m.Description = ""
          · rw [if_pos hd] at hmv; cases hmv
          · rw [if_neg hd] at hmv
            by_cases hs : m.SQL = ""
            · rw [if_pos hs] at hmv; cases hmv
            · rw [if_neg hs] at hmv; cases hmv
      | none =>
        rw [validFrom, if_neg (by simp [hid]), hmv] at h
        exact ih (i + 1) id cause h
    · rw [validFrom, if_pos (by simp [hid])] at h
      cases h

/-- C10: the `id < 1` branch of `Migration.Valid` is unreachable through
`Migrations.Valid`: the returned error is never an "invalid migration"
error whose cause is an "invalid id" error; any "invalid migration"
error names a positive id (the dense-id check runs first, so an element
reached by `Migration.Valid` already has `ID = i+1 ≥ 1`); and when the
scan reaches an element with a non-positive id, it reports the
unexpected-migration-id error instead. -/
theorem validator_invalid_id_unreachable :
    (∀ (ms : Migrations) (id : Int) (cause : Int),
        Migrations.Valid ms ≠ some (.invalidMigration id (.invalidId cause))) ∧
    (∀ (ms : Migrations) (id : Int) (cause : PgError),
        Migrations.Valid ms = some (.invalidMigration id cause) → 1 ≤ id) ∧
    (∀ (ms : Migrations) (i : Nat) (h : i < ms.length),
        (ms.get ⟨i, h⟩).ID < 1 →
        validFrom (ms.drop i) i =
          some (.unexpectedMigrationId (ms.get ⟨i, h⟩).ID ((i : Int) + 1))) := by
  refine ⟨?_, ?_, ?_⟩
  · intro ms id cause h
    exact (validFrom_invalidMigration ms 0 id _ h).2 cause rfl
  · intro ms id cause h
    exact (validFrom_invalidMigration ms 0 id cause h).1
  · intro ms i h hlt
    rw [List.drop_eq_getElem_cons h]
    have hlt2 : ms[i].ID < 1 := by simpa [List.get_eq_getElem] using hlt
    have hne : ms[i].ID ≠ (i : Int) + 1 := by
      have h0 : (0 : Int) ≤ (i : Int) := Int.ofNat_nonneg i
      omega
    rw [validFrom, if_pos (by simpa using hne)]
    simp [List.get_eq_getElem]

/-- Witness for C10 at a concrete input: a single migration with id 0
is reported by the scan as an unexpected-migration-id error. -/
theorem validator_invalid_id_unreachable_witness :
    validFrom (([⟨0, "a", "x"⟩] : Migrations).drop 0) 0 =
      some (.unexpectedMigrationId 0 1) := by
  have := validator_invalid_id_unreachable.2.2 [⟨0, "a", "x"⟩] 0 (by decide) (by decide)
  simpa using this

/-- C3 (counterexample): a sequence whose multiset of ids is exactly
1..2 with individually valid entries, presented out of ascending order,
is rejected by `Migrations.Valid`, which checks the dense-id condition
in presentation order and does not sort. -/
theorem validator_sorted_claim_counterexample :
    List.Perm (Migrations.IDs [⟨2, "b", "y"⟩, ⟨1, "a", "x"⟩]) [1, 2] ∧
    (∀ m ∈ ([⟨2, "b", "y"⟩, ⟨1, "a", "x"⟩] : Migrations), m.Valid = none) ∧
    Migrations.Valid [⟨2, "b", "y"⟩, ⟨1, "a", "x"⟩] =
      some (.unexpectedMigrationId 2 1) := by
  refine ⟨by decide, by decide, by decide⟩

/-- C3 (amended): for a sequence of individually valid migrations,
`Migrations.Valid` succeeds iff the sequence **as presented** has
`id[i] = i+1` at every position; in particular a dense 1-based sequence
presented in ascending order succeeds, and any sequence missing an id
or starting above 1 fails. -/
theorem validator_dense_iff (ms : Migrations) (hv : ∀ m ∈ ms, m.Valid = none) :
    Migrations.Valid ms = none ↔
      ∀ i (h : i < ms.length), (ms.get ⟨i, h⟩).ID = (i : Int) + 1 := by
  rw [Migrations.Valid, validFrom_none_ids ms 0 hv]
  constructor
  · intro H i h
    have := H i h
    simpa using this
  · intro H i h
    have := H i h
    simpa using this

/-- Witness for C3: the dense ascending two-element sequence validates. -/
theorem validator_dense_iff_witness :
    Migrations.Valid [⟨1, "a", "x"⟩, ⟨2, "b", "y"⟩] = none :=
  (validator_dense_iff [⟨1, "a", "x"⟩, ⟨2, "b", "y"⟩] (by decide)).mpr (by decide)

/-! ## Properties of the orchestrator -/

/-- C9: if the candidate sequence fails validation, `Migrate` returns
that structural error with the database untouched, for **every**
environment: no transaction is opened and no database call is consulted
(the result does not depend on `env` at all). -/
theorem migrate_invalid_untouched (c : Config) (env : Env) (db : DBState)
    (ms : Migrations) (err : PgError) (h : Migrations.Valid ms = some err) :
    c.Migrate env db ms = (db, .error err) := by
  unfold Config.Migrate
  rw [h]

/-- Witness for C9: a sequence starting at id 2 is rejected and the
database value is returned unchanged even under a fault-free
environment. -/
theorem migrate_invalid_untouched_witness :
    DefaultConfig.Migrate Env.ok ⟨false, [], []⟩ [⟨2, "b", "y"⟩] =
      (⟨false, [], []⟩, .error (.unexpectedMigrationId 2 1)) :=
  migrate_invalid_untouched DefaultConfig Env.ok ⟨false, [], []⟩ [⟨2, "b", "y"⟩]
    (.unexpectedMigrationId 2 1) (by decide)

/-! ## Properties of the verifier -/

theorem verifyLoop_take_eq (R : Migrations) :
    ∀ C : Migrations, R = C.take R.length → verifyLoop R C = .ok (C.drop R.length) := by
  induction R with
  | nil => intro C _; simp [verifyLoop]
  | cons r rs ih =>
    intro C h
    cases C with
    | nil => simp at h
    | cons c cs =>
      rw [List.length_cons, List.take_succ_cons] at h
      obtain ⟨h1, h2⟩ := List.cons.inj h
      rw [verifyLoop]
      rw [if_neg (by simp [h1])]
      rw [ih cs h2]
      simp

theorem verifyLoop_unknown (C : Migrations) :
    ∀ (R : Migrations) (h : C.length < R.length), C = R.take C.length →
      verifyLoop R C = .error (.unknownMigration (R.get ⟨C.length, h⟩).ID) := by
  induction C with
  | nil =>
    intro R h _
    cases R with
    | nil => simp at h
    | cons r rs => rw [verifyLoop]; rfl
  | cons c cs ih =>
    intro R h hpre
    cases R with
    | nil => simp at h
    | cons r rs =>
      rw [List.length_cons, List.take_succ_cons] at hpre
      obtain ⟨h1, h2⟩ := List.cons.inj hpre
      have h' : cs.length < rs.length := by simpa using h
      rw [verifyLoop, if_neg (by simp [h1]), ih rs h' h2]
      rfl

theorem verifyLoop_modified :
    ∀ (i : Nat) (R C : Migrations) (h1 : i < R.length) (h2 : i < C.length),
      R.take i = C.take i → R.get ⟨i, h1⟩ ≠ C.get ⟨i, h2⟩ →
      verifyLoop R C = .error (.modifiedMigration (R.get ⟨i, h1⟩).ID) := by
  intro i
  induction i with
  | zero =>
    intro R C h1 h2 _ hne
    cases R with
    | nil => simp at h1
    | cons r rs =>
      cases C with
      | nil => simp at h2
      | cons c cs =>
        rw [verifyLoop, if_pos (by simpa using hne)]
        rfl
  | succ i' ih =>
    intro R C h1 h2 htake hne
    cases R with
    | nil => simp at h1
    | cons r rs =>
      cases C with
      | nil => simp at h2
      | cons c cs =>
        rw [List.take_succ_cons, List.take_succ_cons] at htake
        obtain ⟨hrc, htake'⟩ := List.cons.inj htake
        have h1' : i' < rs.length := by simpa using h1
        have h2' : i' < cs.length := by simpa using h2
        rw [verifyLoop, if_neg (by simp [hrc])]
        exact ih rs cs h1' h2' htake' (by simpa using hne)

/-- On success the verifier returns exactly the candidate with the
recorded history removed from the front: recorded ++ remaining =
candidate. -/
theorem verifyLoop_ok_append (R : Migrations) :
    ∀ C rem : Migrations, verifyLoop R C = .ok rem → R ++ rem = C := by
  induction R with
  | nil =>
    intro C rem h
    rw [verifyLoop] at h
    injection h with h'
    simpa using h'.symm
  | cons r rs ih =>
    intro C rem h
    cases C with
    | nil => rw [verifyLoop] at h; cases h
    | cons c cs =>
      rw [verifyLoop] at h
      by_cases hrc : r = c
      · rw [if_neg (by simp [hrc])] at h
        have := ih cs rem h
        simp [hrc, this]
      · rw [if_pos (by simp [hrc])] at h
        cases h

/-- C1: the verifier consumes the candidate head-by-head against the
recorded history (read in ascending id order): a recorded history that
is elementwise structurally equal to the first `|R|` candidates yields
exactly the candidate's remaining suffix; a candidate exhausted before
recorded migration `r` fails with the unknown-migration error naming
`r.ID`; a head structurally different from the current recorded
migration fails with the modified-migration error naming its id. -/
theorem verifier_prefix_consumption (R C : Migrations) :
    (R = C.take R.length → verifyLoop R C = .ok (C.drop R.length)) ∧
    (∀ h : C.length < R.length, C = R.take C.length →
      verifyLoop R C = .error (.unknownMigration (R.get ⟨C.length, h⟩).ID)) ∧
    (∀ (i : Nat) (h1 : i < R.length) (h2 : i < C.length),
      R.take i = C.take i → R.get ⟨i, h1⟩ ≠ C.get ⟨i, h2⟩ →
      verifyLoop R C = .error (.modifiedMigration (R.get ⟨i, h1⟩).ID)) :=
  ⟨verifyLoop_take_eq R C,
   fun h hpre => verifyLoop_unknown C R h hpre,
   fun i h1 h2 htake hne => verifyLoop_modified i R C h1 h2 htake hne⟩

/-- Witness for C1: recorded history `[m1]` against candidate
`[m1, m2]` verifies and returns `[m2]`. -/
theorem verifier_prefix_consumption_witness :
    verifyLoop [⟨1, "a", "x"⟩] [⟨1, "a", "x"⟩, ⟨2, "b", "y"⟩] = .ok [⟨2, "b", "y"⟩] :=
  (verifier_prefix_consumption [⟨1, "a", "x"⟩] [⟨1, "a", "x"⟩, ⟨2, "b", "y"⟩]).1 (by decide)

/-! ## Properties of the applier and orchestrator -/

theorem applyLoop_ok (env : Env) :
    ∀ (ms : Migrations) (tx tx' : Tx), applyLoop env tx ms = .ok tx' →
      tx'.base = tx.base ∧ tx'.pendingInit = tx.pendingInit ∧
      tx'.pendingRows = tx.pendingRows ++ ms ∧
      tx'.pendingExec = tx.pendingExec ++ ms.map Migration.SQL := by
  intro ms
  induction ms with
  | nil =>
    intro tx tx' h
    rw [applyLoop] at h
    injection h with h'
    subst h'
    simp
  | cons m rest ih =>
    intro tx tx' h
    cases hex : env.execErr m.SQL with
    | some msg => simp only [applyLoop, hex] at h; cases h
    | none =>
      cases hin : env.insertErr m.ID with
      | some msg => simp only [applyLoop, hex, hin] at h; cases h
      | none =>
        simp only [applyLoop, hex, hin] at h
        obtain ⟨h1, h2, h3, h4⟩ := ih _ tx' h
        refine ⟨by simpa using h1, by simpa using h2, ?_, ?_⟩
        · rw [h3]; simp
        · rw [h4]; simp

/-- Complete case analysis of `Migrate`: either some stage failed and
the returned state is the input state (the deferred rollback), or
validation, begin, init, the history query, every statement execution,
every bookkeeping insert and the commit all succeeded, and the returned
state is the committed transaction. -/
theorem migrate_cases (c : Config) (env : Env) (db : DBState) (ms : Migrations) :
    (∃ e, c.Migrate env db ms = (db, .error e)) ∨
    (∃ rem tx', Migrations.Valid ms = none ∧
      verifyLoop db.rows ms = .ok rem ∧
      applyLoop env ⟨db, true, [], []⟩ rem = .ok tx' ∧
      env.commitErr = none ∧
      c.Migrate env db ms = (tx'.commit, .ok rem)) := by
  cases hv : Migrations.Valid ms with
  | some err =>
    refine .inl ⟨err, ?_⟩
    simp only [Config.Migrate, hv]
  | none =>
    cases hb : env.beginErr with
    | some msg =>
      refine .inl ⟨.dbError msg, ?_⟩
      simp only [Config.Migrate, hv, hb]
    | none =>
      cases hi : env.initErr with
      | some msg =>
        refine .inl ⟨.dbError msg, ?_⟩
        simp only [Config.Migrate, Config.init, hv, hb, hi, Tx.begin, Tx.rollback]
      | none =>
        cases hq : env.queryErr with
        | some msg =>
          refine .inl ⟨.dbError msg, ?_⟩
          simp only [Config.Migrate, Config.init, Config.verifyMigrations, hv, hb, hi,
            hq, Tx.begin, Tx.rollback]
        | none =>
          cases hver : verifyLoop db.rows ms with
          | error e =>
            refine .inl ⟨e, ?_⟩
            simp only [Config.Migrate, Config.init, Config.verifyMigrations, hv, hb,
              hi, hq, Tx.begin, Tx.rollback, Tx.visibleRows, List.append_nil, hver]
          | ok rem =>
            cases hl : applyLoop env ⟨db, true, [], []⟩ rem with
            | error e =>
              refine .inl ⟨e, ?_⟩
              simp only [Config.Migrate, Config.init, Config.verifyMigrations,
                Config.applyMigrations, hv, hb, hi, hq, Tx.begin, Tx.rollback,
                Tx.visibleRows, List.append_nil, hver, hl]
            | ok tx1 =>
              cases hc : env.commitErr with
              | some msg =>
                refine .inl ⟨.dbError msg, ?_⟩
                simp only [Config.Migrate, Config.init, Config.verifyMigrations,
                  Config.applyMigrations, hv, hb, hi, hq, Tx.begin, Tx.rollback,
                  Tx.visibleRows, List.append_nil, hver, hl, hc]
              | none =>
                refine .inr ⟨rem, tx1, rfl, rfl, hl, rfl, ?_⟩
                simp only [Config.Migrate, Config.init, Config.verifyMigrations,
                  Config.applyMigrations, hv, hb, hi, hq, Tx.begin, Tx.rollback,
                  Tx.visibleRows, List.append_nil, hver, hl, hc]

/-- C2: every invocation of `Migrate` that returns an error — at
validation, transaction begin, store initialization, history read,
verification, statement execution, bookkeeping insert, or commit —
leaves the database state (schema objects, bookkeeping rows, and all
previously applied migrations) exactly as it was before the call:
nothing from the invocation is durable. -/
theorem migrate_error_atomic (c : Config) (env : Env) (db : DBState) (ms : Migrations)
    (e : PgError) (h : (c.Migrate env db ms).2 = .error e) :
    (c.Migrate env db ms).1 = db := by
  rcases migrate_cases c env db ms with ⟨e', heq⟩ | ⟨rem, tx', _, _, _, _, heq⟩
  · rw [heq]
  · rw [heq] at h
    simp at h

/-- Witness for C2: with a commit failure injected, the state after the
call is the state before it. -/
theorem migrate_error_atomic_witness :
    (DefaultConfig.Migrate { Env.ok with commitErr := some "boom" }
        ⟨false, [], []⟩ [⟨1, "a", "x"⟩]).1 = ⟨false, [], []⟩ :=
  migrate_error_atomic DefaultConfig { Env.ok with commitErr := some "boom" }
    ⟨false, [], []⟩ [⟨1, "a", "x"⟩] (.dbError "boom") rfl

/-- C4: when the recorded history is the length-`k` structural prefix of
the candidate `ms` and `Migrate` succeeds, the returned applied list is
exactly `ms.drop k` — the candidate with its first `k` elements removed,
still in ascending id order — and it is empty when `k = ms.length`. -/
theorem migrate_returns_suffix (c : Config) (env : Env) (db : DBState) (ms : Migrations)
    (k : Nat) (applied : Migrations) (hk : k ≤ ms.length) (hR : db.rows = ms.take k)
    (h : (c.Migrate env db ms).2 = .ok applied) :
    applied = ms.drop k ∧ (k = ms.length → applied = []) := by
  rcases migrate_cases c env db ms with ⟨e, heq⟩ | ⟨rem, tx', hv, hver, hl, hc, heq⟩
  · rw [heq] at h
    simp at h
  · rw [heq] at h
    have happ : rem = applied := by simpa using h
    have hlen : (ms.take k).length = k := by
      rw [List.length_take]
      omega
    have hpre := verifyLoop_take_eq (ms.take k) ms (by rw [hlen])
    rw [hlen] at hpre
    rw [hR, hpre] at hver
    have hrem : ms.drop k = rem := by simpa using hver
    constructor
    · rw [← happ, ← hrem]
    · intro hkl
      rw [← happ, ← hrem, hkl, List.drop_length]

/-- Witness for C4: history `[migration 1]`, candidate
`[migration 1, migration 2]`: the second call applies and returns
exactly `[migration 2]`. -/
theorem migrate_returns_suffix_witness :
    ([⟨2, "b", "y"⟩] : Migrations) =
      ([⟨1, "a", "x"⟩, ⟨2, "b", "y"⟩] : Migrations).drop 1 :=
  (migrate_returns_suffix DefaultConfig Env.ok ⟨true, [⟨1, "a", "x"⟩], []⟩
    [⟨1, "a", "x"⟩, ⟨2, "b", "y"⟩] 1 [⟨2, "b", "y"⟩]
    (by decide) (by decide) rfl).1

/-- Under a fault-free environment, running `Migrate` with a valid,
fully recorded candidate succeeds with an empty applied list and leaves
the bookkeeping rows and executed statements unchanged (only the
idempotent create-if-not-exists of the store is reflected). -/
theorem migrate_fully_applied (c : Config) (env : Env) (db : DBState) (ms : Migrations)
    (hb : env.beginErr = none) (hi : env.initErr = none) (hq : env.queryErr = none)
    (hcm : env.commitErr = none) (hvalid : Migrations.Valid ms = none)
    (hrows : db.rows = ms) :
    c.Migrate env db ms = (⟨true, db.rows, db.executed⟩, .ok []) := by
  have hver : verifyLoop db.rows ms = .ok [] := by
    have h := verifyLoop_take_eq ms ms (by simp)
    rw [List.drop_length] at h
    rw [hrows]
    exact h
  simp only [Config.Migrate, Config.init, Config.verifyMigrations,
    Config.applyMigrations, hvalid, hb, hi, hq, hcm, Tx.begin, Tx.visibleRows,
    List.append_nil, hver, applyLoop, Tx.commit]
  simp

/-- C5: `Migrate` is idempotent on a fully applied sequence: with the
recorded history equal to the valid candidate `ms`, it succeeds with an
empty applied list and unchanged bookkeeping rows, and a second
invocation in a row does the same. -/
theorem migrate_idempotent (c : Config) (env : Env) (db : DBState) (ms : Migrations)
    (hb : env.beginErr = none) (hi : env.initErr = none) (hq : env.queryErr = none)
    (hcm : env.commitErr = none) (hvalid : Migrations.Valid ms = none)
    (hrows : db.rows = ms) :
    (c.Migrate env db ms).2 = .ok [] ∧
    ((c.Migrate env db ms).1).rows = db.rows ∧
    (c.Migrate env ((c.Migrate env db ms).1) ms).2 = .ok [] ∧
    ((c.Migrate env ((c.Migrate env db ms).1) ms).1).rows = db.rows := by
  have h1 := migrate_fully_applied c env db ms hb hi hq hcm hvalid hrows
  have h2 := migrate_fully_applied c env ⟨true, db.rows, db.executed⟩ ms
    hb hi hq hcm hvalid hrows
  simp [h1, h2]

/-- Witness for C5: re-running the single fully applied migration
returns an empty applied list. -/
theorem migrate_idempotent_witness :
    (DefaultConfig.Migrate Env.ok ⟨true, [⟨1, "a", "x"⟩], ["x"]⟩ [⟨1, "a", "x"⟩]).2 =
      .ok [] :=
  (migrate_idempotent DefaultConfig Env.ok ⟨true, [⟨1, "a", "x"⟩], ["x"]⟩
    [⟨1, "a", "x"⟩] rfl rfl rfl rfl (by decide) rfl).1

theorem applyLoop_first_failure (env : Env) (m : Migration) (msg : String) :
    ∀ (pre : Migrations) (tx : Tx),
      (∀ p ∈ pre, env.execErr p.SQL = none ∧ env.insertErr p.ID = none) →
      (env.execErr m.SQL = some msg ∨
        (env.execErr m.SQL = none ∧ env.insertErr m.ID = some msg)) →
      ∀ post : Migrations, applyLoop env tx (pre ++ m :: post) =
        .error (.execError m.ID m.Description msg) := by
  intro pre
  induction pre with
  | nil =>
    intro tx _ hfail post
    rcases hfail with hex | ⟨hex, hin⟩
    · simp only [List.nil_append, applyLoop, hex]
    · simp only [List.nil_append, applyLoop, hex, hin]
  | cons p pre' ih =>
    intro tx hpre hfail post
    obtain ⟨hex, hin⟩ := hpre p (List.mem_cons_self p pre')
    simp only [List.cons_append, applyLoop, hex, hin]
    exact ih _ (fun q hq => hpre q (List.mem_cons_of_mem p hq)) hfail post

/-- C6: the applier executes the remaining migrations in presented
(ascending id) order; on the first migration whose statement execution
or bookkeeping insert fails it aborts with an error naming that
migration's id and description and wrapping the cause, and the result
does not depend on the migrations after the failing one — none of them
is attempted.  On success, the statements are buffered in exactly the
presented order. -/
theorem applier_first_failure_aborts (c : Config) (env : Env) (tx : Tx)
    (pre post : Migrations) (m : Migration) (msg : String)
    (hpre : ∀ p ∈ pre, env.execErr p.SQL = none ∧ env.insertErr p.ID = none)
    (hfail : env.execErr m.SQL = some msg ∨
      (env.execErr m.SQL = none ∧ env.insertErr m.ID = some msg)) :
    c.applyMigrations env tx (pre ++ m :: post) =
      .error (.execError m.ID m.Description msg) ∧
    c.applyMigrations env tx (pre ++ m :: post) =
      c.applyMigrations env tx (pre ++ [m]) ∧
    (∀ (ms : Migrations) (tx' : Tx), applyLoop env tx ms = .ok tx' →
      tx'.pendingExec = tx.pendingExec ++ ms.map Migration.SQL) := by
  have h1 := applyLoop_first_failure env m msg pre tx hpre hfail post
  have h2 := applyLoop_first_failure env m msg pre tx hpre hfail []
  refine ⟨?_, ?_, ?_⟩
  · simp only [Config.applyMigrations, h1]
  · simp only [Config.applyMigrations, h1, h2]
  · intro ms tx' h
    exact (applyLoop_ok env ms tx tx' h).2.2.2

/-- Witness for C6: with migration 2's statement failing, applying
migrations 1..3 aborts with the error naming id 2 and description "b",
regardless of migration 3. -/
theorem applier_first_failure_aborts_witness :
    DefaultConfig.applyMigrations
        { Env.ok with execErr := fun s => if s = "boom" then some "syntax error" else none }
        (Tx.begin ⟨true, [], []⟩)
        [⟨1, "a", "x"⟩, ⟨2, "b", "boom"⟩, ⟨3, "c", "z"⟩] =
      .error (.execError 2 "b" "syntax error") :=
  (applier_first_failure_aborts DefaultConfig
    { Env.ok with execErr := fun s => if s = "boom" then some "syntax error" else none }
    (Tx.begin ⟨true, [], []⟩) [⟨1, "a", "x"⟩] [⟨3, "c", "z"⟩] ⟨2, "b", "boom"⟩
    "syntax error" (by decide) (by decide)).1

theorem validFrom_ids : ∀ (ms : Migrations) (i : Nat), validFrom ms i = none →
    Migrations.IDs ms = (List.range ms.length).map (fun j => ((i + j : Nat) : Int) + 1) := by
  intro ms
  induction ms with
  | nil => intro i _; simp [Migrations.IDs]
  | cons m rest ih =>
    intro i h
    rw [validFrom_cons_none_iff] at h
    obtain ⟨h1, _, h3⟩ := h
    have hrest := ih (i + 1) h3
    simp only [Migrations.IDs, List.map_cons] at hrest ⊢
    have htail : List.map Migration.ID rest
        = List.map ((fun j => ((i + j : Nat) : Int) + 1) ∘ Nat.succ)
            (List.range rest.length) := by
      rw [hrest]
      apply List.map_congr_left
      intro a _
      simp only [Function.comp_apply]
      push_cast
      ring
    rw [List.length_cons, List.range_succ_eq_map, List.map_cons, List.map_map,
      ← htail, h1]
    simp

/-- A valid migration list has ids exactly `1..N` in order. -/
theorem valid_ids (ms : Migrations) (h : Migrations.Valid ms = none) :
    Migrations.IDs ms = (List.range ms.length).map (fun j : Nat => (j : Int) + 1) := by
  have := validFrom_ids ms 0 h
  rw [this]
  apply List.map_congr_left
  intro a _
  simp

/-- C7: the bookkeeping prefix invariant is preserved: if the recorded
rows have ids exactly `1..k`, then after any invocation of `Migrate`
(success or failure) the recorded rows are the old rows with new rows
appended only (never updated or deleted) and have ids exactly `1..k'`
for some `k' ≥ k`; on success the candidate is valid and `k'` is its
length, so the applied suffix continued at `k+1` with consecutive
ids. -/
theorem migrate_prefix_invariant (c : Config) (env : Env) (db : DBState)
    (ms : Migrations) (k : Nat)
    (h : Migrations.IDs db.rows = (List.range k).map (fun i : Nat => (i : Int) + 1)) :
    ∃ k', k ≤ k' ∧
      (∃ newRows, ((c.Migrate env db ms).1).rows = db.rows ++ newRows) ∧
      Migrations.IDs ((c.Migrate env db ms).1).rows =
        (List.range k').map (fun i : Nat => (i : Int) + 1) ∧
      (∀ applied, (c.Migrate env db ms).2 = .ok applied → k' = ms.length) := by
  rcases migrate_cases c env db ms with ⟨e, heq⟩ | ⟨rem, tx', hv, hver, hl, hc, heq⟩
  · refine ⟨k, le_refl k, ⟨[], by rw [heq]; simp⟩, by rw [heq]; exact h, ?_⟩
    intro applied happ
    rw [heq] at happ
    simp at happ
  · obtain ⟨hbase, hinit, hrows, hexec⟩ := applyLoop_ok env rem ⟨db, true, [], []⟩ tx' hl
    have hcommit_rows : (tx'.commit).rows = db.rows ++ rem := by
      simp only [Tx.commit, hbase, hrows]
      simp
    have hms : db.rows ++ rem = ms := verifyLoop_ok_append db.rows ms rem hver
    have hlen : db.rows.length = k := by
      have hl2 := congrArg List.length h
      simpa [Migrations.IDs] using hl2
    refine ⟨ms.length, ?_, ⟨rem, by rw [heq]; exact hcommit_rows⟩, ?_, fun _ _ => rfl⟩
    · have : db.rows.length ≤ ms.length := by
        rw [← hms]
        simp
      omega
    · rw [heq]
      have : (tx'.commit).rows = ms := by rw [hcommit_rows, hms]
      rw [this]
      exact valid_ids ms hv

/-- Witness for C7: history with ids `1..1`, candidate `1..2`, fault-free
environment: afterwards the rows have ids `1..2`. -/
theorem migrate_prefix_invariant_witness :
    ∃ k', 1 ≤ k' ∧
      (∃ newRows,
        ((DefaultConfig.Migrate Env.ok ⟨true, [⟨1, "a", "x"⟩], []⟩
            [⟨1, "a", "x"⟩, ⟨2, "b", "y"⟩]).1).rows = [⟨1, "a", "x"⟩] ++ newRows) ∧
      Migrations.IDs ((DefaultConfig.Migrate Env.ok ⟨true, [⟨1, "a", "x"⟩], []⟩
          [⟨1, "a", "x"⟩, ⟨2, "b", "y"⟩]).1).rows =
        (List.range k').map (fun i : Nat => (i : Int) + 1) ∧
      (∀ applied,
        (DefaultConfig.Migrate Env.ok ⟨true, [⟨1, "a", "x"⟩], []⟩
            [⟨1, "a", "x"⟩, ⟨2, "b", "y"⟩]).2 = .ok applied → k' = 2) :=
  migrate_prefix_invariant DefaultConfig Env.ok ⟨true, [⟨1, "a", "x"⟩], []⟩
    [⟨1, "a", "x"⟩, ⟨2, "b", "y"⟩] 1 (by decide)
